import Mathlib

/-!
# Verification of the automated timetable generator core (`src/app.py`)

Shallow embedding of `generate_timetable` and `generate_lab_report` from
`src/app.py`, together with proofs of the specification claims.

Modelling conventions:
* The pandas tables `faculty`, `subjects`, `rooms` become lists of records;
  `df.loc[df[key] == v].iloc[0]` (first matching row, `IndexError` — a Python
  `LookupError` — when no row matches) becomes `List.find?` with `none`
  mapped to an engine error.
* The random shuffle `subjects.sample(frac=1).reset_index(drop=True)` is an
  external source of randomness; the engine takes the already shuffled list
  `availableSubjects` as an argument, and claims about "every shuffle"
  quantify over permutations of the subject pool.
* The grid `pd.DataFrame(index=time_slots, columns=days).fillna("Free")`
  becomes a structure carrying its two axes and a total cell function.
* The `while attempts < len(available_subjects)` loop becomes a structurally
  recursive scan whose fuel starts at the pool size; each loop iteration
  consumes one unit of fuel, and the `break` on commit stops the scan.
* `timetable[selected_days]` (pandas column selection) raises `KeyError`
  when a selected label is absent from the columns; this is modelled by an
  `Except` error.  `.stack()` walks the frame row-major (each index row in
  order, then the selected columns in the order given) and drops the `None`
  entries produced by `applymap`.
-/

structure FacultyRec where
  facultyID : String
  name : String
deriving DecidableEq, Repr

structure SubjectRec where
  subjectName : String
  facultyID : String
  roomID : String
deriving DecidableEq, Repr

structure RoomRec where
  roomID : String
  roomName : String
deriving DecidableEq, Repr

/-- The fixed day axis of every generated grid (`days` in `generate_timetable`). -/
def days : List String :=
  ["Monday", "Tuesday", "Wednesday", "Thursday", "Friday", "Saturday"]

/-- The fixed time axis of every generated grid (`time_slots` in `generate_timetable`). -/
def time_slots : List String :=
  ["8:00", "9:00", "10:00", "11:00", "12:00", "1:00", "2:00", "3:00"]

/-- A day × time grid: the `pd.DataFrame(index=time_slots, columns=days)`.
`cell t d` is the entry at row (time slot) `t` and column (day) `d`. -/
structure Grid where
  index : List String
  columns : List String
  cell : String → String → String

/-- The engine's only failure mode: `.iloc[0]` on an empty selection raises
`IndexError`, a Python `LookupError`. -/
inductive EngineError where
  | lookupError
deriving DecidableEq, Repr

/-- `faculty.loc[faculty['FacultyID'] == fid].iloc[0]`: the first faculty row
whose `FacultyID` equals `fid`, if any. -/
def findFaculty (faculty : List FacultyRec) (fid : String) : Option FacultyRec :=
  faculty.find? (fun f => f.facultyID == fid)

/-- `rooms.loc[rooms['RoomID'] == rid].iloc[0]`: the first room row whose
`RoomID` equals `rid`, if any. -/
def findRoom (rooms : List RoomRec) (rid : String) : Option RoomRec :=
  rooms.find? (fun r => r.roomID == rid)

/-- `f"{subject_row['SubjectName']} ({faculty_member['Name']}) - {room['RoomName']}"` -/
def assignmentString (s : SubjectRec) (f : FacultyRec) (r : RoomRec) : String :=
  s.subjectName ++ " (" ++ f.name ++ ") - " ++ r.roomName

/-- Mutable state of the grid-filling pass of `generate_timetable`:
the grid cells, the global cursor `subject_index`, and the per-time-slot
memory `faculty_last_assigned`.  `cellFaculty` is a ghost field recording,
for each committed cell, the faculty name embedded in it (it is written in
exactly the same branch that writes `cells` and `lastAssigned`, and is used
only to state theorems). -/
structure EngineState where
  cells : String → String → String
  subjectIndex : Nat
  lastAssigned : String → Option String
  cellFaculty : String → String → Option String

/-- The `while attempts < len(available_subjects)` loop of `generate_timetable`
for one `(day, time)` cell.  The fuel argument is the number of loop
iterations still allowed (`len(available_subjects) - attempts`).  Returns
either an engine error (an unresolved faculty/room key), or `(some (cellStr,
facName), idx')` when a candidate was committed (the `break` branch), or
`(none, idx')` when the loop exhausted its attempts and the cell stays
"Free". -/
def scanCell (faculty : List FacultyRec) (rooms : List RoomRec)
    (avail : List SubjectRec) (lastMem : Option String) :
    Nat → Nat → Except EngineError (Option (String × String) × Nat)
  | subjectIndex, 0 => .ok (none, subjectIndex)
  | subjectIndex, fuel + 1 =>
    match avail.get? (subjectIndex % avail.length) with
    | none => .ok (none, subjectIndex)
    | some subjectRow =>
      match findFaculty faculty subjectRow.facultyID with
      | none => .error .lookupError
      | some facultyMember =>
        match findRoom rooms subjectRow.roomID with
        | none => .error .lookupError
        | some room =>
          if lastMem = some facultyMember.name then
            scanCell faculty rooms avail lastMem (subjectIndex + 1) fuel
          else
            .ok (some (assignmentString subjectRow facultyMember room,
                       facultyMember.name), subjectIndex + 1)

/-- Process a single `(day, time)` cell: run the candidate scan and, on a
commit, write the cell, update the time slot's remembered faculty name and
the global cursor. -/
def fillCell (faculty : List FacultyRec) (rooms : List RoomRec)
    (avail : List SubjectRec) (day time : String) (st : EngineState) :
    Except EngineError EngineState :=
  match scanCell faculty rooms avail (st.lastAssigned time) st.subjectIndex
      avail.length with
  | .error e => .error e
  | .ok (none, idx) => .ok { st with subjectIndex := idx }
  | .ok (some (cellStr, facName), idx) =>
    .ok { cells := fun t d =>
            if t = time then (if d = day then cellStr else st.cells t d)
            else st.cells t d,
          subjectIndex := idx,
          lastAssigned := fun t =>
            if t = time then some facName else st.lastAssigned t,
          cellFaculty := fun t d =>
            if t = time then (if d = day then some facName else st.cellFaculty t d)
            else st.cellFaculty t d }

/-- The inner `for time in time_slots` loop of `generate_timetable`. -/
def fillSlots (faculty : List FacultyRec) (rooms : List RoomRec)
    (avail : List SubjectRec) (day : String) :
    List String → EngineState → Except EngineError EngineState
  | [], st => .ok st
  | time :: rest, st =>
    match fillCell faculty rooms avail day time st with
    | .error e => .error e
    | .ok st' => fillSlots faculty rooms avail day rest st'

/-- The outer `for day in days` loop of `generate_timetable`. -/
def fillDays (faculty : List FacultyRec) (rooms : List RoomRec)
    (avail : List SubjectRec) :
    List String → EngineState → Except EngineError EngineState
  | [], st => .ok st
  | day :: rest, st =>
    match fillSlots faculty rooms avail day time_slots st with
    | .error e => .error e
    | .ok st' => fillDays faculty rooms avail rest st'

/-- State at the start of the grid-filling pass: all cells "Free"
(`timetable.fillna("Free")`), cursor 0, every time slot's memory `None`. -/
def initialState : EngineState :=
  { cells := fun _ _ => "Free"
    subjectIndex := 0
    lastAssigned := fun _ => none
    cellFaculty := fun _ _ => none }

/-- The whole grid-filling pass of `generate_timetable`, returning the final
engine state. -/
def runEngine (faculty : List FacultyRec) (availableSubjects : List SubjectRec)
    (rooms : List RoomRec) : Except EngineError EngineState :=
  fillDays faculty rooms availableSubjects days initialState

/-- `generate_timetable(section, faculty, subjects, rooms)` from `src/app.py`.
`availableSubjects` is the already shuffled subject pool (the result of
`subjects.sample(frac=1).reset_index(drop=True)`).  The `section` argument is
kept to mirror the Python signature (it is never read by the body). -/
def generate_timetable (sectionName : String) (faculty : List FacultyRec)
    (availableSubjects : List SubjectRec) (rooms : List RoomRec) :
    Except EngineError Grid :=
  match runEngine faculty availableSubjects rooms with
  | .error e => .error e
  | .ok st => .ok { index := time_slots, columns := days, cell := st.cells }

/-- The extractor's only failure mode: `timetable[selected_days]` raises
`KeyError` (a Python `LookupError`) when a selected day is not a column of
the grid. -/
inductive ExtractError where
  | keyError
deriving DecidableEq, Repr

/-- One row of the lab report: `['Time', 'Day', 'Session']`. -/
structure LabRow where
  time : String
  day : String
  session : String
deriving DecidableEq, Repr

/-- `marker.isPrefixOf (s.drop i)` for some `i`: the Python substring test
`marker in s` (case-sensitive). -/
def strContainsSub (s marker : String) : Bool :=
  (List.range (s.data.length + 1)).any (fun i => marker.data.isPrefixOf (s.data.drop i))

/-- `'Lab' in x`: the lab-session marker test of `generate_lab_report`. -/
def hasLab (s : String) : Bool := strContainsSub s "Lab"

/-- `generate_lab_report(timetable, selected_days)` from `src/app.py`:
select the `selected_days` columns (KeyError if one is absent), map each
cell to itself when it contains "Lab" and to `None` otherwise, then
`stack()` — walk the index rows in order and, within each row, the selected
columns in the order given, dropping the `None` entries — and label the
resulting rows `(Time, Day, Session)`.  The trailing `dropna()` removes
nothing because `stack()` already dropped the missing entries. -/
def generate_lab_report (timetable : Grid) (selected_days : List String) :
    Except ExtractError (List LabRow) :=
  if selected_days.all (fun d => timetable.columns.contains d) then
    .ok (timetable.index.flatMap (fun t =>
      (selected_days.filter (fun d => hasLab (timetable.cell t d))).map
        (fun d => { time := t, day := d, session := timetable.cell t d })))
  else
    .error .keyError

/-! ## Executable observers used in concrete statements -/

/-- `true` iff the engine succeeded. -/
def engineOk (e : Except EngineError Grid) : Bool :=
  match e with
  | .ok _ => true
  | .error _ => false

/-- `true` iff the engine succeeded and every cell of the returned grid is
"Free". -/
def gridAllFreeB (e : Except EngineError Grid) : Bool :=
  match e with
  | .ok g => g.index.all (fun t => g.columns.all (fun d => g.cell t d == "Free"))
  | .error _ => false

/-- The grid of a successful engine result (a degenerate empty grid
otherwise); used to name the result grid in closed statements. -/
def theGridOf (e : Except EngineError Grid) : Grid :=
  match e with
  | .ok g => g
  | .error _ => { index := [], columns := [], cell := fun _ _ => "Free" }

/-- The final state of a successful engine pass (the initial state
otherwise); used to name the result state in closed statements. -/
def theStateOf (e : Except EngineError EngineState) : EngineState :=
  match e with
  | .ok st => st
  | .error _ => initialState

/-- Rows grouped by day in the order of `sd`: every earlier row's day occurs
in `sd` no later than every later row's day.  This is the output ordering
asserted by the specification for `generate_lab_report`. -/
def dayGrouped (sd : List String) (rows : List LabRow) : Prop :=
  List.Pairwise (fun r1 r2 => sd.indexOf r1.day ≤ sd.indexOf r2.day) rows

instance (sd : List String) (rows : List LabRow) : Decidable (dayGrouped sd rows) :=
  inferInstanceAs (Decidable (List.Pairwise _ rows))

/-- Time-major lexicographic order on report rows: strictly later position of
the time slot in `index`, or the same time slot and a no-earlier position of
the day in `sd`.  This is the ordering the code actually produces. -/
def timeMajor (index sd : List String) (r1 r2 : LabRow) : Prop :=
  index.indexOf r1.time < index.indexOf r2.time ∨
    (r1.time = r2.time ∧ sd.indexOf r1.day < sd.indexOf r2.day)

/-! ## Concrete example data -/

/-- Faculty table of the end-to-end example in the specification. -/
def facEx : List FacultyRec := [{ facultyID := "F1", name := "Dr. A" }]

/-- Rooms table of the end-to-end example in the specification. -/
def roomsEx : List RoomRec := [{ roomID := "R1", roomName := "Room101" }]

/-- Subject pool of the end-to-end example in the specification. -/
def subjEx : List SubjectRec :=
  [{ subjectName := "Lab Physics", facultyID := "F1", roomID := "R1" }]

/-- A two-subject pool with two distinct faculty names. -/
def subjTwo : List SubjectRec :=
  [{ subjectName := "Lab Physics", facultyID := "F1", roomID := "R1" },
   { subjectName := "Math", facultyID := "F2", roomID := "R1" }]

/-- Faculty table for `subjTwo`. -/
def facTwo : List FacultyRec :=
  [{ facultyID := "F1", name := "Dr. A" }, { facultyID := "F2", name := "Dr. B" }]

/-- A concrete filled grid with lab sessions at 8:00 and 9:00 on Monday and
Wednesday. -/
def gridEx2 : Grid :=
  { index := time_slots
    columns := days
    cell := fun t d =>
      if ((t == "8:00") || (t == "9:00")) && ((d == "Monday") || (d == "Wednesday"))
      then "Lab" else "Free" }

/-- A 48-entry faculty table with pairwise distinct names. -/
def bigFaculty : List FacultyRec :=
  (List.range 48).map (fun i => { facultyID := "F" ++ toString i, name := "N" ++ toString i })

/-- A 49-subject pool whose last subject references the absent faculty id
"FBAD"; the 48 well-formed subjects all have distinct faculty names. -/
def bigSubjects : List SubjectRec :=
  ((List.range 48).map (fun i =>
    { subjectName := "S" ++ toString i, facultyID := "F" ++ toString i, roomID := "R" })) ++
  [{ subjectName := "SBAD", facultyID := "FBAD", roomID := "R" }]

/-- Room table for `bigSubjects`. -/
def bigRooms : List RoomRec := [{ roomID := "R", roomName := "Room" }]

/-- The candidate subject at cursor position `k` (if any) has resolvable
faculty and room keys. -/
def lookupOk (faculty : List FacultyRec) (rooms : List RoomRec)
    (avail : List SubjectRec) (k : Nat) : Prop :=
  ∀ s, avail.get? (k % avail.length) = some s →
    (findFaculty faculty s.facultyID).isSome = true ∧
      (findRoom rooms s.roomID).isSome = true

/-! ## General lemmas about the extractor -/

/-- Characterization of report membership: a row is emitted exactly for the
cells whose day was selected and whose contents contain the "Lab" marker. -/
theorem mem_report_iff {g : Grid} {sd : List String} {rows : List LabRow}
    (h : generate_lab_report g sd = .ok rows) (r : LabRow) :
    r ∈ rows ↔
      (r.time ∈ g.index ∧ r.day ∈ sd ∧ hasLab (g.cell r.time r.day) = true ∧
        r.session = g.cell r.time r.day) := by
  unfold generate_lab_report at h
  split at h
  · injection h with h
    subst h
    obtain ⟨t0, d0, s0⟩ := r
    simp only [List.mem_flatMap, List.mem_map, List.mem_filter, LabRow.mk.injEq]
    constructor
    · rintro ⟨t, ht, d, ⟨hd, hlab⟩, rfl, rfl, rfl⟩
      exact ⟨ht, hd, hlab, rfl⟩
    · rintro ⟨ht, hd, hlab, hs⟩
      exact ⟨t0, ht, d0, ⟨hd, hs ▸ hlab⟩, rfl, rfl, hs.symm⟩
  · cases h

/-! ## C1 — empty subject pool -/

/-- C1, counterexample: calling the engine with an empty subject pool on the
specification's example tables does not fail; it silently returns a grid all
of whose cells are "Free" (the `while` guard `attempts < 0` is false at once,
so the claimed division-by-zero-equivalent rejection never happens). -/
theorem c1_counterexample :
    gridAllFreeB (generate_timetable "EEE-A" facEx [] roomsEx) = true := by decide

/-- C1, amended: for every faculty table and room table, calling the engine
with an empty subject pool succeeds and returns the all-"Free" grid; no
error is raised and no cell is assigned. -/
theorem c1_amended (sectionName : String) (faculty : List FacultyRec)
    (rooms : List RoomRec) :
    gridAllFreeB (generate_timetable sectionName faculty [] rooms) = true := rfl

/-! ## C3 — extraction restricted to a day outside the grid's Day domain -/

/-- C3, counterexample: extracting from a concrete filled grid with the
selected day "Sunday", which is not among the grid's columns, does not yield
an empty sequence — it fails with a KeyError (pandas column selection with a
missing label). -/
theorem c3_counterexample :
    generate_lab_report gridEx2 ["Sunday"] = .error .keyError := rfl

/-- C3, amended: for every grid, extracting with a `selectedDays` list that
contains a day absent from the grid's columns fails with a KeyError instead
of returning an empty sequence. -/
theorem c3_amended (g : Grid) (sd : List String) (d : String)
    (hd : d ∈ sd) (hnot : g.columns.contains d = false) :
    generate_lab_report g sd = .error .keyError := by
  unfold generate_lab_report
  rw [if_neg]
  intro hall
  rw [List.all_eq_true] at hall
  rw [hall d hd] at hnot
  cases hnot

/-- C3 witness: the amended statement holds at a concrete grid and day list. -/
theorem c3_witness :
    ("Sunday" ∈ ["Monday", "Sunday"] ∧ gridEx2.columns.contains "Sunday" = false) ∧
      generate_lab_report gridEx2 ["Monday", "Sunday"] = .error .keyError :=
  ⟨⟨by decide, by decide⟩,
    c3_amended gridEx2 ["Monday", "Sunday"] "Sunday" (by decide) (by decide)⟩

/-! ## C9 — the engine never reads its section argument -/

/-- C9: the grid produced by the engine does not depend on the section label:
with the same faculty, (shuffled) subject, and room tables, any two section
labels produce identical results.  The `section` parameter of
`generate_timetable` is never read. -/
theorem c9_section_independent (s1 s2 : String) (faculty : List FacultyRec)
    (avail : List SubjectRec) (rooms : List RoomRec) :
    generate_timetable s1 faculty avail rooms =
      generate_timetable s2 faculty avail rooms := rfl

/-! ## C2 — output ordering of the extractor -/

/-- C2, counterexample: on a concrete grid with lab cells at 8:00 and 9:00 on
Monday and Wednesday, extraction with `selectedDays = [Monday, Wednesday]`
interleaves the days (a Wednesday row appears between two Monday rows), so
the rows are not grouped by day; `stack()` walks the grid time-slot-major. -/
theorem c2_counterexample :
    generate_lab_report gridEx2 ["Monday", "Wednesday"] =
      .ok [{ time := "8:00", day := "Monday", session := "Lab" },
           { time := "8:00", day := "Wednesday", session := "Lab" },
           { time := "9:00", day := "Monday", session := "Lab" },
           { time := "9:00", day := "Wednesday", session := "Lab" }] ∧
    ¬ dayGrouped ["Monday", "Wednesday"]
        [{ time := "8:00", day := "Monday", session := "Lab" },
         { time := "8:00", day := "Wednesday", session := "Lab" },
         { time := "9:00", day := "Monday", session := "Lab" },
         { time := "9:00", day := "Wednesday", session := "Lab" }] :=
  ⟨rfl, by decide⟩

/-! ## C8 — purity and the emission rule of the extractor -/

/-- C8: the extractor is pure (two runs on the same grid and day list give
identical results) and a row is emitted exactly for the cells whose day was
selected and whose rendered string contains the case-sensitive marker
substring "Lab"; in particular a "Free" cell is never emitted. -/
theorem c8_extractor_pure_emission (g : Grid) (sd : List String)
    (rows : List LabRow) (h : generate_lab_report g sd = .ok rows) :
    generate_lab_report g sd = generate_lab_report g sd ∧
    (∀ r : LabRow, r ∈ rows ↔
      (r.time ∈ g.index ∧ r.day ∈ sd ∧ hasLab (g.cell r.time r.day) = true ∧
        r.session = g.cell r.time r.day)) ∧
    (∀ r ∈ rows, r.session ≠ "Free") := by
  refine ⟨rfl, fun r => mem_report_iff h r, ?_⟩
  intro r hr hfree
  obtain ⟨-, -, hlab, hs⟩ := (mem_report_iff h r).mp hr
  rw [← hs, hfree] at hlab
  exact absurd hlab (by decide)

/-- C8 witness: the statement instantiated on a concrete grid and day list. -/
theorem c8_witness :
    (generate_lab_report gridEx2 ["Monday"] =
      .ok [{ time := "8:00", day := "Monday", session := "Lab" },
           { time := "9:00", day := "Monday", session := "Lab" }]) ∧
    (generate_lab_report gridEx2 ["Monday"] = generate_lab_report gridEx2 ["Monday"] ∧
     (∀ r : LabRow,
        r ∈ [{ time := "8:00", day := "Monday", session := "Lab" },
             { time := "9:00", day := "Monday", session := "Lab" }] ↔
          (r.time ∈ gridEx2.index ∧ r.day ∈ ["Monday"] ∧
            hasLab (gridEx2.cell r.time r.day) = true ∧
            r.session = gridEx2.cell r.time r.day)) ∧
     (∀ r ∈ ([{ time := "8:00", day := "Monday", session := "Lab" },
              { time := "9:00", day := "Monday", session := "Lab" }] : List LabRow),
        r.session ≠ "Free")) :=
  ⟨rfl, c8_extractor_pure_emission gridEx2 ["Monday"]
    [{ time := "8:00", day := "Monday", session := "Lab" },
     { time := "9:00", day := "Monday", session := "Lab" }] rfl⟩

/-! ## C7 — the end-to-end single-subject example -/

/-- C7: with faculty `[{F1, "Dr. A"}]`, rooms `[{R1, "Room101"}]`, subjects
`[{"Lab Physics", F1, R1}]` and any shuffle of that pool, the engine
succeeds; every non-"Free" cell (exactly the Monday column) renders as
"Lab Physics (Dr. A) - Room101", and extracting lab rows over the day set
[Monday, Wednesday] yields exactly one row per non-"Free" cell, each with
that session string. -/
theorem c7_end_to_end (avail : List SubjectRec) (hperm : avail.Perm subjEx) :
    ∃ g, generate_timetable "EEE-A" facEx avail roomsEx = .ok g ∧
      (∀ t ∈ time_slots, g.cell t "Monday" = "Lab Physics (Dr. A) - Room101") ∧
      (∀ t ∈ time_slots, ∀ d ∈ days, d ≠ "Monday" → g.cell t d = "Free") ∧
      generate_lab_report g ["Monday", "Wednesday"] =
        .ok (time_slots.map (fun t =>
          { time := t, day := "Monday", session := "Lab Physics (Dr. A) - Room101" })) := by
  have h1 : avail.Perm [{ subjectName := "Lab Physics", facultyID := "F1", roomID := "R1" }] :=
    hperm
  have havail : avail = subjEx := List.perm_singleton.mp h1
  subst havail
  exact ⟨theGridOf (generate_timetable "EEE-A" facEx subjEx roomsEx), rfl,
    by decide, by decide, rfl⟩

/-- C7 witness: the statement instantiated at the identity shuffle. -/
theorem c7_witness :
    subjEx.Perm subjEx ∧
    (∃ g, generate_timetable "EEE-A" facEx subjEx roomsEx = .ok g ∧
      (∀ t ∈ time_slots, g.cell t "Monday" = "Lab Physics (Dr. A) - Room101") ∧
      (∀ t ∈ time_slots, ∀ d ∈ days, d ≠ "Monday" → g.cell t d = "Free") ∧
      generate_lab_report g ["Monday", "Wednesday"] =
        .ok (time_slots.map (fun t =>
          { time := t, day := "Monday", session := "Lab Physics (Dr. A) - Room101" }))) :=
  ⟨List.Perm.refl _, c7_end_to_end subjEx (List.Perm.refl _)⟩

/-- In a duplicate-free list, an earlier element has a strictly smaller
`indexOf` than a later one. -/
theorem indexOf_pairwise {l : List String} (h : l.Nodup) :
    l.Pairwise (fun a b => l.indexOf a < l.indexOf b) := by
  induction l with
  | nil => exact List.Pairwise.nil
  | cons x xs ih =>
    rw [List.nodup_cons] at h
    refine List.Pairwise.cons ?_ ((ih h.2).imp_of_mem ?_)
    · intro b hb
      have hxb : x ≠ b := fun he => h.1 (he ▸ hb)
      rw [List.indexOf_cons_self, List.indexOf_cons_ne _ hxb]
      exact Nat.succ_pos _
    · intro a b ha hb hab
      have hxa : x ≠ a := fun he => h.1 (he ▸ ha)
      have hxb : x ≠ b := fun he => h.1 (he ▸ hb)
      rw [List.indexOf_cons_ne _ hxa, List.indexOf_cons_ne _ hxb]
      exact Nat.succ_lt_succ hab

/-- C2, amended: for every grid with duplicate-free time axis and every
duplicate-free `selectedDays`, the extractor's rows are grouped by time slot
in the grid's fixed time-slot order and, within one time slot, ordered by
the order `selectedDays` was given — time-slot-major, not day-major. -/
theorem c2_amended (g : Grid) (sd : List String) (rows : List LabRow)
    (hidx : g.index.Nodup) (hsd : sd.Nodup)
    (h : generate_lab_report g sd = .ok rows) :
    List.Pairwise (timeMajor g.index sd) rows := by
  unfold generate_lab_report at h
  split at h
  · injection h with h
    subst h
    rw [List.pairwise_flatMap]
    constructor
    · intro t ht
      rw [List.pairwise_map]
      have hfil : (sd.filter (fun d => hasLab (g.cell t d))).Pairwise
          (fun d1 d2 => sd.indexOf d1 < sd.indexOf d2) :=
        List.Pairwise.sublist (List.filter_sublist _) (indexOf_pairwise hsd)
      exact hfil.imp (fun hd => Or.inr ⟨rfl, hd⟩)
    · refine (indexOf_pairwise hidx).imp_of_mem ?_
      intro t1 t2 h1 h2 hlt x hx y hy
      obtain ⟨d1, -, rfl⟩ := List.mem_map.mp hx
      obtain ⟨d2, -, rfl⟩ := List.mem_map.mp hy
      exact Or.inl hlt
  · cases h

/-- C2 witness: the amended ordering statement at a concrete grid and day
list. -/
theorem c2_witness :
    (gridEx2.index.Nodup ∧ (["Monday", "Wednesday"] : List String).Nodup ∧
      generate_lab_report gridEx2 ["Monday", "Wednesday"] =
        .ok [{ time := "8:00", day := "Monday", session := "Lab" },
             { time := "8:00", day := "Wednesday", session := "Lab" },
             { time := "9:00", day := "Monday", session := "Lab" },
             { time := "9:00", day := "Wednesday", session := "Lab" }]) ∧
    List.Pairwise (timeMajor gridEx2.index ["Monday", "Wednesday"])
      [{ time := "8:00", day := "Monday", session := "Lab" },
       { time := "8:00", day := "Wednesday", session := "Lab" },
       { time := "9:00", day := "Monday", session := "Lab" },
       { time := "9:00", day := "Wednesday", session := "Lab" }] :=
  ⟨⟨by decide, by decide, rfl⟩,
    c2_amended gridEx2 ["Monday", "Wednesday"] _ (by decide) (by decide) rfl⟩

/-! ## Lemmas about the candidate scan -/

/-- An assignment string is never the sentinel "Free" (it always contains the
six formatting characters, so it is longer than "Free"). -/
theorem assignmentString_ne_free (s : SubjectRec) (f : FacultyRec) (r : RoomRec) :
    assignmentString s f r ≠ "Free" := by
  intro h
  have hlen := congrArg String.length h
  simp only [assignmentString, String.length_append] at hlen
  have e1 : (" (" : String).length = 2 := rfl
  have e2 : (") - " : String).length = 4 := rfl
  have e3 : ("Free" : String).length = 4 := rfl
  rw [e1, e2, e3] at hlen
  omega

/-- What a commit of the candidate scan guarantees: the committed faculty
name differs from the remembered one, and the committed string is the
assignment string of a pool subject whose keys resolve. -/
theorem scanCell_ok_commit {faculty : List FacultyRec} {rooms : List RoomRec}
    {avail : List SubjectRec} {lastMem : Option String} :
    ∀ {fuel idx cellStr nm idx'},
      scanCell faculty rooms avail lastMem idx fuel = .ok (some (cellStr, nm), idx') →
      lastMem ≠ some nm ∧ cellStr ≠ "Free" ∧
        ∃ subj fac room, subj ∈ avail ∧
          findFaculty faculty subj.facultyID = some fac ∧
          findRoom rooms subj.roomID = some room ∧
          fac.name = nm ∧ cellStr = assignmentString subj fac room := by
  intro fuel
  induction fuel with
  | zero => intro idx cellStr nm idx' h; cases h
  | succ fuel ih =>
    intro idx cellStr nm idx' h
    unfold scanCell at h
    split at h
    · cases h
    · rename_i subj hget
      split at h
      · cases h
      · rename_i fac hfac
        split at h
        · cases h
        · rename_i room hroom
          split at h
          · exact ih h
          · rename_i hmem
            injection h with h1
            injection h1 with ha hb
            injection ha with hc
            injection hc with hcell hnm
            subst hcell
            subst hnm
            exact ⟨hmem, assignmentString_ne_free _ _ _,
              subj, fac, room, List.get?_mem hget, hfac, hroom, rfl, rfl⟩

/-- The candidate scan advances the cursor monotonically, resolves the keys
of every candidate in the traversed cursor interval, and advances by at
least one when the pool is non-empty. -/
theorem scanCell_interval {faculty : List FacultyRec} {rooms : List RoomRec}
    {avail : List SubjectRec} {lastMem : Option String} :
    ∀ {fuel idx res idx'},
      scanCell faculty rooms avail lastMem idx fuel = .ok (res, idx') →
      (∀ k, idx ≤ k → k < idx' → lookupOk faculty rooms avail k) ∧
        idx ≤ idx' ∧ (0 < avail.length → 0 < fuel → idx < idx') := by
  intro fuel
  induction fuel with
  | zero =>
    intro idx res idx' h
    unfold scanCell at h
    injection h with h1
    injection h1 with _ h2
    subst h2
    exact ⟨fun k hk1 hk2 => absurd (Nat.lt_of_le_of_lt hk1 hk2) (Nat.lt_irrefl _),
      Nat.le_refl _, fun _ h0 => absurd h0 (Nat.lt_irrefl _)⟩
  | succ fuel ih =>
    intro idx res idx' h
    unfold scanCell at h
    split at h
    · rename_i hget
      injection h with h1
      injection h1 with _ h2
      subst h2
      refine ⟨fun k hk1 hk2 => absurd (Nat.lt_of_le_of_lt hk1 hk2) (Nat.lt_irrefl _),
        Nat.le_refl _, fun hlen _ => ?_⟩
      rw [List.get?_eq_get (Nat.mod_lt _ hlen)] at hget
      cases hget
    · rename_i subj hget
      split at h
      · cases h
      · rename_i fac hfac
        split at h
        · cases h
        · rename_i room hroom
          have hk0 : lookupOk faculty rooms avail idx := by
            intro s hs
            rw [hget] at hs
            injection hs with hs
            subst hs
            exact ⟨by rw [hfac]; rfl, by rw [hroom]; rfl⟩
          split at h
          · obtain ⟨hcov, hle, _⟩ := ih h
            refine ⟨fun k hk1 hk2 => ?_, Nat.le_trans (Nat.le_succ _) hle,
              fun _ _ => Nat.lt_of_lt_of_le (Nat.lt_succ_self _) hle⟩
            rcases Nat.eq_or_lt_of_le hk1 with rfl | hk1'
            · exact hk0
            · exact hcov k hk1' hk2
          · injection h with h1
            injection h1 with _ h2
            subst h2
            refine ⟨fun k hk1 hk2 => ?_, Nat.le_succ _, fun _ _ => Nat.lt_succ_self _⟩
            have : k = idx := by omega
            subst this
            exact hk0

/-- Any residue `p < n` is hit by `(idx + j) % n` for some `j < n`: one full
wrap of the cursor visits every pool position. -/
theorem exists_window_hit (n p idx : Nat) (hp : p < n) :
    ∃ j, j < n ∧ (idx + j) % n = p := by
  have hn : 0 < n := Nat.lt_of_le_of_lt (Nat.zero_le p) hp
  refine ⟨(p + n - idx % n) % n, Nat.mod_lt _ hn, ?_⟩
  rw [Nat.add_mod_mod]
  have hr : idx % n ≤ n := Nat.le_of_lt (Nat.mod_lt _ hn)
  have hsplit : idx + (p + n - idx % n) = p + n + n * (idx / n) := by
    have hd := Nat.mod_add_div idx n
    omega
  rw [hsplit, Nat.add_mul_mod_self_left, Nat.add_mod_right]
  exact Nat.mod_eq_of_lt hp

/-- If every pool subject's keys resolve and some cursor position within the
fuel window carries a subject whose faculty name differs from the remembered
one, the scan commits. -/
theorem scanCell_commits {faculty : List FacultyRec} {rooms : List RoomRec}
    {avail : List SubjectRec} {lastMem : Option String}
    (hres : ∀ s ∈ avail, (findFaculty faculty s.facultyID).isSome = true ∧
      (findRoom rooms s.roomID).isSome = true)
    (hlen : 0 < avail.length) :
    ∀ fuel idx,
      (∃ j, j < fuel ∧ ∀ s, avail.get? ((idx + j) % avail.length) = some s →
        ∀ fac, findFaculty faculty s.facultyID = some fac →
          lastMem ≠ some fac.name) →
      ∃ cellStr nm idx',
        scanCell faculty rooms avail lastMem idx fuel = .ok (some (cellStr, nm), idx') := by
  intro fuel
  induction fuel with
  | zero =>
    intro idx ⟨j, hj, _⟩
    exact absurd hj (Nat.not_lt_zero _)
  | succ fuel ih =>
    intro idx ⟨j, hj, hcand⟩
    obtain ⟨subj, hget⟩ :
        ∃ subj, avail.get? (idx % avail.length) = some subj := by
      rw [List.get?_eq_get (Nat.mod_lt _ hlen)]
      exact ⟨_, rfl⟩
    obtain ⟨hfs, hrs⟩ := hres subj (List.get?_mem hget)
    obtain ⟨fac, hfac⟩ := Option.isSome_iff_exists.mp hfs
    obtain ⟨room, hroom⟩ := Option.isSome_iff_exists.mp hrs
    unfold scanCell
    simp only [hget, hfac, hroom]
    by_cases hmem : lastMem = some fac.name
    · rw [if_pos hmem]
      refine ih (idx + 1) ?_
      have hj0 : j ≠ 0 := by
        intro h0
        subst h0
        rw [Nat.add_zero] at hcand
        exact hcand subj hget fac hfac hmem
      obtain ⟨j', rfl⟩ := Nat.exists_eq_succ_of_ne_zero hj0
      refine ⟨j', Nat.lt_of_succ_lt_succ hj, ?_⟩
      have harith : idx + 1 + j' = idx + (j' + 1) := by omega
      rw [harith]
      exact hcand
    · rw [if_neg hmem]
      exact ⟨_, _, _, rfl⟩

/-! ## Lemmas about a single cell -/

/-- Effect of processing one cell: all other cells, ghost entries, and other
time slots' memories are untouched; the cursor is monotone; and the cell
itself is either left alone or committed to an assignment string of a pool
subject whose faculty name differs from the remembered one. -/
theorem fillCell_ok {faculty : List FacultyRec} {rooms : List RoomRec}
    {avail : List SubjectRec} {day time : String} {st st' : EngineState}
    (h : fillCell faculty rooms avail day time st = .ok st') :
    (∀ t d, t ≠ time ∨ d ≠ day →
      st'.cells t d = st.cells t d ∧ st'.cellFaculty t d = st.cellFaculty t d) ∧
    (∀ t, t ≠ time → st'.lastAssigned t = st.lastAssigned t) ∧
    st.subjectIndex ≤ st'.subjectIndex ∧
    ((st'.cells time day = st.cells time day ∧
      st'.cellFaculty time day = st.cellFaculty time day ∧
      st'.lastAssigned time = st.lastAssigned time) ∨
     (∃ nm subj fac room, subj ∈ avail ∧
        findFaculty faculty subj.facultyID = some fac ∧
        findRoom rooms subj.roomID = some room ∧ fac.name = nm ∧
        st.lastAssigned time ≠ some nm ∧
        st'.cells time day = assignmentString subj fac room ∧
        st'.cells time day ≠ "Free" ∧
        st'.cellFaculty time day = some nm ∧
        st'.lastAssigned time = some nm)) := by
  unfold fillCell at h
  split at h
  · cases h
  · rename_i idx hscan
    injection h with h1
    subst h1
    exact ⟨fun t d _ => ⟨rfl, rfl⟩, fun t _ => rfl,
      (scanCell_interval hscan).2.1, Or.inl ⟨rfl, rfl, rfl⟩⟩
  · rename_i cellStr facName idx hscan
    injection h with h1
    subst h1
    obtain ⟨hmem, hfree, subj, fac, room, hsub, hfac, hroom, hname, hcellstr⟩ :=
      scanCell_ok_commit hscan
    have hcell : (if time = time then (if day = day then cellStr else st.cells time day)
        else st.cells time day) = cellStr := by
      rw [if_pos rfl, if_pos rfl]
    refine ⟨?_, ?_, (scanCell_interval hscan).2.1,
      Or.inr ⟨facName, subj, fac, room, hsub, hfac, hroom, hname, hmem, ?_, ?_, ?_, ?_⟩⟩
    · intro t d htd
      constructor
      · show (if t = time then (if d = day then cellStr else st.cells t d)
            else st.cells t d) = st.cells t d
        rcases htd with ht | hd
        · rw [if_neg ht]
        · by_cases ht : t = time
          · rw [if_pos ht, if_neg hd]
          · rw [if_neg ht]
      · show (if t = time then (if d = day then some facName else st.cellFaculty t d)
            else st.cellFaculty t d) = st.cellFaculty t d
        rcases htd with ht | hd
        · rw [if_neg ht]
        · by_cases ht : t = time
          · rw [if_pos ht, if_neg hd]
          · rw [if_neg ht]
    · intro t ht
      show (if t = time then some facName else st.lastAssigned t) = st.lastAssigned t
      rw [if_neg ht]
    · show (if time = time then (if day = day then cellStr else st.cells time day)
          else st.cells time day) = _
      rw [hcell]
      exact hcellstr
    · show (if time = time then (if day = day then cellStr else st.cells time day)
          else st.cells time day) ≠ "Free"
      rw [hcell]
      exact hfree
    · show (if time = time then (if day = day then some facName else st.cellFaculty time day)
          else st.cellFaculty time day) = some facName
      rw [if_pos rfl, if_pos rfl]
    · show (if time = time then some facName else st.lastAssigned time) = some facName
      rw [if_pos rfl]

/-- Processing one cell resolves the keys of every candidate in the traversed
cursor interval, and advances the cursor when the pool is non-empty. -/
theorem fillCell_lookupOk {faculty : List FacultyRec} {rooms : List RoomRec}
    {avail : List SubjectRec} {day time : String} {st st' : EngineState}
    (h : fillCell faculty rooms avail day time st = .ok st') :
    (∀ k, st.subjectIndex ≤ k → k < st'.subjectIndex → lookupOk faculty rooms avail k) ∧
    (0 < avail.length → st.subjectIndex < st'.subjectIndex) := by
  unfold fillCell at h
  split at h
  · cases h
  · rename_i idx hscan
    injection h with h1
    subst h1
    obtain ⟨hcov, _, hstep⟩ := scanCell_interval hscan
    exact ⟨hcov, fun hlen => hstep hlen hlen⟩
  · rename_i cellStr facName idx hscan
    injection h with h1
    subst h1
    obtain ⟨hcov, _, hstep⟩ := scanCell_interval hscan
    exact ⟨hcov, fun hlen => hstep hlen hlen⟩

/-- When every pool subject's keys resolve and the pool carries at least two
distinct resolved faculty names, every cell scan commits: some candidate in
one full wrap of the cursor has a name different from the remembered one. -/
theorem fillCell_commits {faculty : List FacultyRec} {rooms : List RoomRec}
    {avail : List SubjectRec}
    (hres : ∀ s ∈ avail, (findFaculty faculty s.facultyID).isSome = true ∧
      (findRoom rooms s.roomID).isSome = true)
    (hlen : 0 < avail.length)
    (hdist : ∃ s1 ∈ avail, ∃ s2 ∈ avail,
      Option.map FacultyRec.name (findFaculty faculty s1.facultyID) ≠
        Option.map FacultyRec.name (findFaculty faculty s2.facultyID))
    (day time : String) (st : EngineState) :
    ∃ st', fillCell faculty rooms avail day time st = .ok st' ∧
      st'.cells time day ≠ "Free" ∧
      (∀ t d, t ≠ time ∨ d ≠ day → st'.cells t d = st.cells t d) := by
  have hwit : ∃ j, j < avail.length ∧
      ∀ s, avail.get? ((st.subjectIndex + j) % avail.length) = some s →
        ∀ fac, findFaculty faculty s.facultyID = some fac →
          st.lastAssigned time ≠ some fac.name := by
    cases hmem : st.lastAssigned time with
    | none =>
      exact ⟨0, hlen, fun s _ fac _ h => by cases h⟩
    | some m =>
      obtain ⟨s1, hs1, s2, hs2, hne⟩ := hdist
      obtain ⟨fac1, hfac1⟩ := Option.isSome_iff_exists.mp (hres s1 hs1).1
      obtain ⟨fac2, hfac2⟩ := Option.isSome_iff_exists.mp (hres s2 hs2).1
      rw [hfac1, hfac2, Option.map_some', Option.map_some'] at hne
      have hne' : fac1.name ≠ fac2.name := fun he => hne (by rw [he])
      have hone : ∃ s ∈ avail, ∀ fac, findFaculty faculty s.facultyID = some fac →
          fac.name ≠ m := by
        by_cases h1 : fac1.name = m
        · refine ⟨s2, hs2, fun fac hfac => ?_⟩
          rw [hfac2] at hfac
          injection hfac with e
          subst e
          intro h2
          exact hne' (h1.trans h2.symm)
        · refine ⟨s1, hs1, fun fac hfac => ?_⟩
          rw [hfac1] at hfac
          injection hfac with e
          subst e
          exact h1
      obtain ⟨sW, hsW, hW⟩ := hone
      obtain ⟨p, hp⟩ := List.mem_iff_get?.mp hsW
      have hplt : p < avail.length := by
        by_contra hge
        rw [List.get?_eq_none.mpr (Nat.le_of_not_lt hge)] at hp
        cases hp
      obtain ⟨j, hjlt, hjhit⟩ := exists_window_hit avail.length p st.subjectIndex hplt
      refine ⟨j, hjlt, ?_⟩
      intro s hs fac hfac
      rw [hjhit, hp] at hs
      injection hs with e
      subst e
      intro hcontra
      injection hcontra with e2
      exact hW fac hfac e2.symm
  obtain ⟨cellStr, nm, idx', hscan⟩ :=
    scanCell_commits hres hlen avail.length st.subjectIndex hwit
  have hfc : fillCell faculty rooms avail day time st = .ok
      { cells := fun t d =>
          if t = time then (if d = day then cellStr else st.cells t d)
          else st.cells t d,
        subjectIndex := idx',
        lastAssigned := fun t =>
          if t = time then some nm else st.lastAssigned t,
        cellFaculty := fun t d =>
          if t = time then (if d = day then some nm else st.cellFaculty t d)
          else st.cellFaculty t d } := by
    unfold fillCell
    rw [hscan]
  refine ⟨_, hfc, ?_, ?_⟩
  · show (if time = time then (if day = day then cellStr else st.cells time day)
        else st.cells time day) ≠ "Free"
    rw [if_pos rfl, if_pos rfl]
    exact (scanCell_ok_commit hscan).2.1
  · intro t d htd
    show (if t = time then (if d = day then cellStr else st.cells t d)
        else st.cells t d) = st.cells t d
    rcases htd with ht | hd
    · rw [if_neg ht]
    · by_cases ht : t = time
      · rw [if_pos ht, if_neg hd]
      · rw [if_neg ht]

/-! ## Lemmas about one day's slot loop -/

/-- Effect of one day's pass over a duplicate-free slot list: other days'
cells are untouched; unprocessed slots are untouched; each processed slot is
either left alone or committed, and a commit records a faculty name that
differs from the slot's remembered name at the start of the day and becomes
the slot's remembered name at the end of the day. -/
theorem fillSlots_ok {faculty : List FacultyRec} {rooms : List RoomRec}
    {avail : List SubjectRec} {day : String} :
    ∀ {ts : List String} {st st' : EngineState}, ts.Nodup →
      fillSlots faculty rooms avail day ts st = .ok st' →
      (∀ t d, d ≠ day →
        st'.cells t d = st.cells t d ∧ st'.cellFaculty t d = st.cellFaculty t d) ∧
      (∀ t, t ∉ ts → st'.cells t day = st.cells t day ∧
        st'.cellFaculty t day = st.cellFaculty t day ∧
        st'.lastAssigned t = st.lastAssigned t) ∧
      (∀ t, t ∈ ts →
        ((st'.cells t day = st.cells t day ∧
          st'.cellFaculty t day = st.cellFaculty t day ∧
          st'.lastAssigned t = st.lastAssigned t) ∨
         (∃ nm subj fac room, subj ∈ avail ∧
            findFaculty faculty subj.facultyID = some fac ∧
            findRoom rooms subj.roomID = some room ∧ fac.name = nm ∧
            st.lastAssigned t ≠ some nm ∧
            st'.cells t day = assignmentString subj fac room ∧
            st'.cells t day ≠ "Free" ∧
            st'.cellFaculty t day = some nm ∧
            st'.lastAssigned t = some nm))) := by
  intro ts
  induction ts with
  | nil =>
    intro st st' _ h
    unfold fillSlots at h
    injection h with h1
    subst h1
    exact ⟨fun t d _ => ⟨rfl, rfl⟩, fun t _ => ⟨rfl, rfl, rfl⟩,
      fun t ht => absurd ht (List.not_mem_nil t)⟩
  | cons t0 rest ih =>
    intro st st' hnd h
    rw [List.nodup_cons] at hnd
    unfold fillSlots at h
    split at h
    · cases h
    · rename_i st1 hfc
      obtain ⟨ihframe, ihout, ihin⟩ := ih hnd.2 h
      obtain ⟨fcframe, fclast, _, fcmain⟩ := fillCell_ok hfc
      refine ⟨?_, ?_, ?_⟩
      · intro t d hd
        obtain ⟨h1, h2⟩ := ihframe t d hd
        obtain ⟨h3, h4⟩ := fcframe t d (Or.inr hd)
        exact ⟨h1.trans h3, h2.trans h4⟩
      · intro t ht
        have ht0 : t ≠ t0 := fun he => ht (he ▸ List.mem_cons_self t0 rest)
        have htr : t ∉ rest := fun hm => ht (List.mem_cons_of_mem _ hm)
        obtain ⟨h1, h2, h3⟩ := ihout t htr
        obtain ⟨h4, h5⟩ := fcframe t day (Or.inl ht0)
        exact ⟨h1.trans h4, h2.trans h5, h3.trans (fclast t ht0)⟩
      · intro t ht
        rcases List.mem_cons.mp ht with rfl | htr
        · obtain ⟨h1, h2, h3⟩ := ihout t hnd.1
          rcases fcmain with ⟨m1, m2, m3⟩ |
            ⟨nm, subj, fac, room, hsub, hfac, hroom, hname, hmemne, hcs, hcne, hcf, hla⟩
          · exact Or.inl ⟨h1.trans m1, h2.trans m2, h3.trans m3⟩
          · exact Or.inr ⟨nm, subj, fac, room, hsub, hfac, hroom, hname, hmemne,
              h1.trans hcs, fun he => hcne (h1.symm.trans he), h2.trans hcf, h3.trans hla⟩
        · have ht0 : t ≠ t0 := fun he => hnd.1 (he ▸ htr)
          obtain ⟨h4, h5⟩ := fcframe t day (Or.inl ht0)
          have h6 := fclast t ht0
          rcases ihin t htr with ⟨h1, h2, h3⟩ |
            ⟨nm, subj, fac, room, hsub, hfac, hroom, hname, hmemne, hcs, hcne, hcf, hla⟩
          · exact Or.inl ⟨h1.trans h4, h2.trans h5, h3.trans h6⟩
          · exact Or.inr ⟨nm, subj, fac, room, hsub, hfac, hroom, hname,
              fun he => hmemne (h6.trans he), hcs, hcne, hcf, hla⟩

/-- One day's pass resolves all candidates in the traversed cursor interval
and advances the cursor by at least the number of slots when the pool is
non-empty. -/
theorem fillSlots_lookupOk {faculty : List FacultyRec} {rooms : List RoomRec}
    {avail : List SubjectRec} {day : String} :
    ∀ {ts : List String} {st st' : EngineState},
      fillSlots faculty rooms avail day ts st = .ok st' →
      (∀ k, st.subjectIndex ≤ k → k < st'.subjectIndex → lookupOk faculty rooms avail k) ∧
      st.subjectIndex ≤ st'.subjectIndex ∧
      (0 < avail.length → st.subjectIndex + ts.length ≤ st'.subjectIndex) := by
  intro ts
  induction ts with
  | nil =>
    intro st st' h
    unfold fillSlots at h
    injection h with h1
    subst h1
    exact ⟨fun k hk1 hk2 => absurd (Nat.lt_of_le_of_lt hk1 hk2) (Nat.lt_irrefl _),
      Nat.le_refl _, fun _ => by simp⟩
  | cons t0 rest ih =>
    intro st st' h
    unfold fillSlots at h
    split at h
    · cases h
    · rename_i st1 hfc
      obtain ⟨ihcov, ihle, ihlen⟩ := ih h
      obtain ⟨fccov, fcstep⟩ := fillCell_lookupOk hfc
      have hle1 : st.subjectIndex ≤ st1.subjectIndex := (fillCell_ok hfc).2.2.1
      refine ⟨?_, Nat.le_trans hle1 ihle, ?_⟩
      · intro k hk1 hk2
        by_cases hk : k < st1.subjectIndex
        · exact fccov k hk1 hk
        · exact ihcov k (Nat.le_of_not_lt hk) hk2
      · intro hlen
        have h1 := fcstep hlen
        have h2 := ihlen hlen
        have h3 : (t0 :: rest).length = rest.length + 1 := by simp
        omega

/-- When every key resolves and two distinct faculty names exist in the
pool, one day's pass commits every slot of the duplicate-free slot list. -/
theorem fillSlots_commits {faculty : List FacultyRec} {rooms : List RoomRec}
    {avail : List SubjectRec} {day : String}
    (hres : ∀ s ∈ avail, (findFaculty faculty s.facultyID).isSome = true ∧
      (findRoom rooms s.roomID).isSome = true)
    (hlen : 0 < avail.length)
    (hdist : ∃ s1 ∈ avail, ∃ s2 ∈ avail,
      Option.map FacultyRec.name (findFaculty faculty s1.facultyID) ≠
        Option.map FacultyRec.name (findFaculty faculty s2.facultyID)) :
    ∀ {ts : List String}, ts.Nodup → ∀ st : EngineState, ∃ st',
      fillSlots faculty rooms avail day ts st = .ok st' ∧
      (∀ t ∈ ts, st'.cells t day ≠ "Free") ∧
      (∀ t d, t ∉ ts ∨ d ≠ day → st'.cells t d = st.cells t d) := by
  intro ts
  induction ts with
  | nil =>
    intro _ st
    exact ⟨st, rfl, fun t ht => absurd ht (List.not_mem_nil t), fun t d _ => rfl⟩
  | cons t0 rest ih =>
    intro hnd st
    rw [List.nodup_cons] at hnd
    obtain ⟨st1, hfc, hne, hframe⟩ := fillCell_commits hres hlen hdist day t0 st
    obtain ⟨st', hfs, hin, hframe2⟩ := ih hnd.2 st1
    refine ⟨st', ?_, ?_, ?_⟩
    · unfold fillSlots
      rw [hfc]
      exact hfs
    · intro t ht
      rcases List.mem_cons.mp ht with rfl | htr
      · rw [hframe2 t day (Or.inl hnd.1)]
        exact hne
      · exact hin t htr
    · intro t d htd
      rcases htd with ht | hd
      · have ht0 : t ≠ t0 := fun he => ht (he ▸ List.mem_cons_self t0 rest)
        have htr : t ∉ rest := fun hm => ht (List.mem_cons_of_mem _ hm)
        rw [hframe2 t d (Or.inl htr), hframe t d (Or.inl ht0)]
      · rw [hframe2 t d (Or.inr hd), hframe t d (Or.inr hd)]

/-! ## Lemmas about the day loop -/

/-- Main invariant of the grid-filling pass over a duplicate-free day list
whose columns start all-"Free": unprocessed days stay untouched; every
processed cell is "Free" or an assignment string of a resolving pool
subject; a day's committed faculty name at a slot differs from the memory
the slot had when the day list started (link clause, stated for the first
day); and committed faculty names at the same slot differ between
consecutive processed days. -/
theorem fillDays_inv {faculty : List FacultyRec} {rooms : List RoomRec}
    {avail : List SubjectRec} :
    ∀ {ds : List String} {st st' : EngineState}, ds.Nodup →
      fillDays faculty rooms avail ds st = .ok st' →
      (∀ t d, d ∈ ds → st.cells t d = "Free" ∧ st.cellFaculty t d = none) →
      (∀ t d, d ∉ ds →
        st'.cells t d = st.cells t d ∧ st'.cellFaculty t d = st.cellFaculty t d) ∧
      (∀ t d, d ∈ ds →
        ((st'.cells t d = "Free" ∧ st'.cellFaculty t d = none) ∨
         (∃ nm subj fac room, subj ∈ avail ∧
            findFaculty faculty subj.facultyID = some fac ∧
            findRoom rooms subj.roomID = some room ∧ fac.name = nm ∧
            st'.cellFaculty t d = some nm ∧
            st'.cells t d = assignmentString subj fac room ∧
            st'.cells t d ≠ "Free"))) ∧
      (∀ t m, st.lastAssigned t = some m →
        ∀ d0, ds.head? = some d0 → ∀ nm, st'.cellFaculty t d0 = some nm → nm ≠ m) ∧
      List.Chain' (fun d d' => ∀ t nm nm',
        st'.cellFaculty t d = some nm → st'.cellFaculty t d' = some nm' → nm ≠ nm') ds := by
  intro ds
  induction ds with
  | nil =>
    intro st st' _ h _
    unfold fillDays at h
    injection h with h1
    subst h1
    exact ⟨fun t d _ => ⟨rfl, rfl⟩, fun t d hd => absurd hd (List.not_mem_nil d),
      ⟨fun t m _ d0 h0 => Option.noConfusion h0, trivial⟩⟩
  | cons d0 rest ih =>
    intro st st' hnd h hpend
    rw [List.nodup_cons] at hnd
    unfold fillDays at h
    split at h
    · cases h
    · rename_i st1 hfs
      have hts_nd : time_slots.Nodup := by decide
      obtain ⟨fsframe, fsout, fsin⟩ := fillSlots_ok hts_nd hfs
      have hpend1 : ∀ t d, d ∈ rest →
          st1.cells t d = "Free" ∧ st1.cellFaculty t d = none := by
        intro t d hd
        have hdne : d ≠ d0 := fun he => hnd.1 (he ▸ hd)
        obtain ⟨e1, e2⟩ := fsframe t d hdne
        obtain ⟨p1, p2⟩ := hpend t d (List.mem_cons_of_mem _ hd)
        exact ⟨e1.trans p1, e2.trans p2⟩
      obtain ⟨ihframe, ihin, ihlink, ihchain⟩ := ih hnd.2 h hpend1
      have hd0cases : ∀ t,
          (st1.cells t d0 = "Free" ∧ st1.cellFaculty t d0 = none) ∨
          (∃ nm subj fac room, subj ∈ avail ∧
             findFaculty faculty subj.facultyID = some fac ∧
             findRoom rooms subj.roomID = some room ∧ fac.name = nm ∧
             st.lastAssigned t ≠ some nm ∧
             st1.cells t d0 = assignmentString subj fac room ∧
             st1.cells t d0 ≠ "Free" ∧
             st1.cellFaculty t d0 = some nm ∧
             st1.lastAssigned t = some nm) := by
        intro t
        obtain ⟨p1, p2⟩ := hpend t d0 (List.mem_cons_self d0 rest)
        by_cases ht : t ∈ time_slots
        · rcases fsin t ht with ⟨e1, e2, _⟩ | hcommit
          · exact Or.inl ⟨e1.trans p1, e2.trans p2⟩
          · exact Or.inr hcommit
        · obtain ⟨e1, e2, _⟩ := fsout t ht
          exact Or.inl ⟨e1.trans p1, e2.trans p2⟩
      have hd0fix : ∀ t, st'.cells t d0 = st1.cells t d0 ∧
          st'.cellFaculty t d0 = st1.cellFaculty t d0 :=
        fun t => ihframe t d0 hnd.1
      refine ⟨?_, ?_, ?_, ?_⟩
      · intro t d hd
        have hdne : d ≠ d0 := fun he => hd (he ▸ List.mem_cons_self d0 rest)
        have hdr : d ∉ rest := fun hm => hd (List.mem_cons_of_mem _ hm)
        obtain ⟨e1, e2⟩ := ihframe t d hdr
        obtain ⟨e3, e4⟩ := fsframe t d hdne
        exact ⟨e1.trans e3, e2.trans e4⟩
      · intro t d hd
        rcases List.mem_cons.mp hd with rfl | hdr
        · obtain ⟨f1, f2⟩ := hd0fix t
          rcases hd0cases t with ⟨e1, e2⟩ |
            ⟨nm, subj, fac, room, hsub, hfac, hroom, hname, _, hcs, hcne, hcf, _⟩
          · exact Or.inl ⟨f1.trans e1, f2.trans e2⟩
          · exact Or.inr ⟨nm, subj, fac, room, hsub, hfac, hroom, hname,
              f2.trans hcf, f1.trans hcs, fun he => hcne (f1.symm.trans he)⟩
        · exact ihin t d hdr
      · intro t m hm d0' h0 nm hcf
        injection h0 with e0
        subst e0
        rcases hd0cases t with ⟨_, e2⟩ |
          ⟨nm2, subj, fac, room, _, _, _, _, hmemne, _, _, hcf1, _⟩
        · rw [(hd0fix t).2, e2] at hcf
          cases hcf
        · rw [(hd0fix t).2, hcf1] at hcf
          injection hcf with e
          rw [e] at hmemne
          intro he
          exact hmemne (hm.trans (by rw [he]))
      · rw [List.chain'_cons']
        refine ⟨?_, ihchain⟩
        intro d1 hd1 t nm nm' hcf0 hcf1
        rcases hd0cases t with ⟨_, e2⟩ |
          ⟨nm2, subj, fac, room, _, _, _, _, _, _, _, hcf2, hla⟩
        · rw [(hd0fix t).2, e2] at hcf0
          cases hcf0
        · rw [(hd0fix t).2, hcf2] at hcf0
          injection hcf0 with e
          rw [e] at hla
          have hd1' : rest.head? = some d1 := hd1
          exact (ihlink t nm hla d1 hd1' nm' hcf1).symm

/-- The whole pass resolves all candidates in the traversed cursor interval
and advances the cursor by at least eight per processed day when the pool is
non-empty. -/
theorem fillDays_lookupOk {faculty : List FacultyRec} {rooms : List RoomRec}
    {avail : List SubjectRec} :
    ∀ {ds : List String} {st st' : EngineState},
      fillDays faculty rooms avail ds st = .ok st' →
      (∀ k, st.subjectIndex ≤ k → k < st'.subjectIndex → lookupOk faculty rooms avail k) ∧
      st.subjectIndex ≤ st'.subjectIndex ∧
      (0 < avail.length → st.subjectIndex + 8 * ds.length ≤ st'.subjectIndex) := by
  intro ds
  induction ds with
  | nil =>
    intro st st' h
    unfold fillDays at h
    injection h with h1
    subst h1
    exact ⟨fun k hk1 hk2 => absurd (Nat.lt_of_le_of_lt hk1 hk2) (Nat.lt_irrefl _),
      Nat.le_refl _, fun _ => by simp⟩
  | cons d0 rest ih =>
    intro st st' h
    unfold fillDays at h
    split at h
    · cases h
    · rename_i st1 hfs
      obtain ⟨ihcov, ihle, ihlen⟩ := ih h
      obtain ⟨fscov, fsle, fslen⟩ := fillSlots_lookupOk hfs
      refine ⟨?_, Nat.le_trans fsle ihle, ?_⟩
      · intro k hk1 hk2
        by_cases hk : k < st1.subjectIndex
        · exact fscov k hk1 hk
        · exact ihcov k (Nat.le_of_not_lt hk) hk2
      · intro hlen
        have h1 := fslen hlen
        have h2 := ihlen hlen
        have h3 : (d0 :: rest).length = rest.length + 1 := by simp
        have h4 : time_slots.length = 8 := rfl
        omega

/-- When every key resolves and two distinct faculty names exist in the
pool, the whole pass commits every cell of a duplicate-free day list. -/
theorem fillDays_commits {faculty : List FacultyRec} {rooms : List RoomRec}
    {avail : List SubjectRec}
    (hres : ∀ s ∈ avail, (findFaculty faculty s.facultyID).isSome = true ∧
      (findRoom rooms s.roomID).isSome = true)
    (hlen : 0 < avail.length)
    (hdist : ∃ s1 ∈ avail, ∃ s2 ∈ avail,
      Option.map FacultyRec.name (findFaculty faculty s1.facultyID) ≠
        Option.map FacultyRec.name (findFaculty faculty s2.facultyID)) :
    ∀ {ds : List String}, ds.Nodup → ∀ st : EngineState, ∃ st',
      fillDays faculty rooms avail ds st = .ok st' ∧
      (∀ d ∈ ds, ∀ t ∈ time_slots, st'.cells t d ≠ "Free") ∧
      (∀ t d, d ∉ ds → st'.cells t d = st.cells t d) := by
  intro ds
  induction ds with
  | nil =>
    intro _ st
    exact ⟨st, rfl, fun d hd => absurd hd (List.not_mem_nil d), fun t d _ => rfl⟩
  | cons d0 rest ih =>
    intro hnd st
    rw [List.nodup_cons] at hnd
    have hts_nd : time_slots.Nodup := by decide
    obtain ⟨st1, hfs, hin, hframe⟩ := fillSlots_commits hres hlen hdist hts_nd st
    obtain ⟨st', hfd, hin2, hframe2⟩ := ih hnd.2 st1
    refine ⟨st', ?_, ?_, ?_⟩
    · unfold fillDays
      rw [hfs]
      exact hfd
    · intro d hd t ht
      rcases List.mem_cons.mp hd with rfl | hdr
      · rw [hframe2 t d hnd.1]
        exact hin t ht
      · exact hin2 d hdr t ht
    · intro t d hd
      have hdne : d ≠ d0 := fun he => hd (he ▸ List.mem_cons_self d0 rest)
      have hdr : d ∉ rest := fun hm => hd (List.mem_cons_of_mem _ hm)
      rw [hframe2 t d hdr, hframe t d (Or.inr hdne)]

/-! ## C6 — shape and contents of a successful grid -/

/-- C6: whenever the engine succeeds, the grid has the fixed 8-slot × 6-day
axes (48 cells), and every cell holds exactly one string: the sentinel
"Free" or the assignment string of a pool subject whose faculty and room
keys resolve in their tables. -/
theorem c6_grid_shape (sectionName : String) (faculty : List FacultyRec)
    (avail : List SubjectRec) (rooms : List RoomRec) (g : Grid)
    (h : generate_timetable sectionName faculty avail rooms = .ok g) :
    g.index = time_slots ∧ g.columns = days ∧
    g.index.length * g.columns.length = 48 ∧
    (∀ t d, g.cell t d = "Free" ∨
      ∃ subj fac room, subj ∈ avail ∧
        findFaculty faculty subj.facultyID = some fac ∧
        findRoom rooms subj.roomID = some room ∧
        g.cell t d = assignmentString subj fac room) := by
  unfold generate_timetable at h
  split at h
  · cases h
  · rename_i st hrun
    injection h with h1g
    subst h1g
    refine ⟨rfl, rfl, rfl, ?_⟩
    intro t d
    have hnd : days.Nodup := by decide
    have hrun' : fillDays faculty rooms avail days initialState = .ok st := hrun
    obtain ⟨hframe, hin, -, -⟩ := fillDays_inv hnd hrun' (fun t d _ => ⟨rfl, rfl⟩)
    by_cases hd : d ∈ days
    · rcases hin t d hd with ⟨e1, -⟩ |
        ⟨nm, subj, fac, room, hsub, hfac, hroom, -, -, hcs, -⟩
      · exact Or.inl e1
      · exact Or.inr ⟨subj, fac, room, hsub, hfac, hroom, hcs⟩
    · exact Or.inl (hframe t d hd).1

/-- C6 witness: the statement instantiated on a concrete two-subject run. -/
theorem c6_witness :
    (generate_timetable "EEE-A" facTwo subjTwo roomsEx =
      .ok (theGridOf (generate_timetable "EEE-A" facTwo subjTwo roomsEx))) ∧
    ((theGridOf (generate_timetable "EEE-A" facTwo subjTwo roomsEx)).index = time_slots ∧
     (theGridOf (generate_timetable "EEE-A" facTwo subjTwo roomsEx)).columns = days ∧
     (theGridOf (generate_timetable "EEE-A" facTwo subjTwo roomsEx)).index.length *
       (theGridOf (generate_timetable "EEE-A" facTwo subjTwo roomsEx)).columns.length = 48 ∧
     (∀ t d, (theGridOf (generate_timetable "EEE-A" facTwo subjTwo roomsEx)).cell t d = "Free" ∨
       ∃ subj fac room, subj ∈ subjTwo ∧
         findFaculty facTwo subj.facultyID = some fac ∧
         findRoom roomsEx subj.roomID = some room ∧
         (theGridOf (generate_timetable "EEE-A" facTwo subjTwo roomsEx)).cell t d =
           assignmentString subj fac room)) :=
  ⟨rfl, c6_grid_shape "EEE-A" facTwo subjTwo roomsEx _ rfl⟩

/-! ## C5 — remembered-faculty rule across consecutive days -/

/-- C5: in every grid the engine returns, two cells at the same time slot on
consecutive days that are both non-"Free" embed different faculty names: the
per-slot memory persists across days, and a commit requires a name different
from that memory.  The committed names are recovered through the ghost
`cellFaculty` field of the final engine state. -/
theorem c5_consecutive_distinct (sectionName : String) (faculty : List FacultyRec)
    (avail : List SubjectRec) (rooms : List RoomRec) (g : Grid)
    (h : generate_timetable sectionName faculty avail rooms = .ok g)
    (i : Nat) (hi : i + 1 < days.length) (t : String)
    (h1 : g.cell t (days.get ⟨i, Nat.lt_of_succ_lt hi⟩) ≠ "Free")
    (h2 : g.cell t (days.get ⟨i + 1, hi⟩) ≠ "Free") :
    ∃ st nm nm', runEngine faculty avail rooms = .ok st ∧ g.cell = st.cells ∧
      st.cellFaculty t (days.get ⟨i, Nat.lt_of_succ_lt hi⟩) = some nm ∧
      st.cellFaculty t (days.get ⟨i + 1, hi⟩) = some nm' ∧ nm ≠ nm' := by
  unfold generate_timetable at h
  split at h
  · cases h
  · rename_i st hrun
    injection h with h1g
    subst h1g
    have hnd : days.Nodup := by decide
    have hrun' : fillDays faculty rooms avail days initialState = .ok st := hrun
    obtain ⟨-, hin, -, hchain⟩ := fillDays_inv hnd hrun' (fun t d _ => ⟨rfl, rfl⟩)
    have hd1mem : days.get ⟨i, Nat.lt_of_succ_lt hi⟩ ∈ days := List.get_mem _ _ _
    have hd2mem : days.get ⟨i + 1, hi⟩ ∈ days := List.get_mem _ _ _
    rcases hin t _ hd1mem with ⟨e1, -⟩ |
      ⟨nm, subj1, fac1, room1, -, -, -, -, hcf1, -, -⟩
    · exact absurd e1 h1
    rcases hin t _ hd2mem with ⟨e2, -⟩ |
      ⟨nm', subj2, fac2, room2, -, -, -, -, hcf2, -, -⟩
    · exact absurd e2 h2
    have hlt : i < days.length - 1 := by
      have hdl : days.length = 6 := rfl
      omega
    have hstep := List.chain'_iff_get.mp hchain i hlt
    exact ⟨st, nm, nm', hrun, rfl, hcf1, hcf2, hstep t nm nm' hcf1 hcf2⟩

/-- C5 witness: the statement instantiated on a concrete two-subject run, at
Monday/Tuesday 8:00. -/
theorem c5_witness :
    (generate_timetable "EEE-A" facTwo subjTwo roomsEx =
      .ok (theGridOf (generate_timetable "EEE-A" facTwo subjTwo roomsEx))) ∧
    0 + 1 < days.length ∧
    (theGridOf (generate_timetable "EEE-A" facTwo subjTwo roomsEx)).cell "8:00"
      (days.get ⟨0, by decide⟩) ≠ "Free" ∧
    (theGridOf (generate_timetable "EEE-A" facTwo subjTwo roomsEx)).cell "8:00"
      (days.get ⟨1, by decide⟩) ≠ "Free" ∧
    (∃ st nm nm', runEngine facTwo subjTwo roomsEx = .ok st ∧
      (theGridOf (generate_timetable "EEE-A" facTwo subjTwo roomsEx)).cell = st.cells ∧
      st.cellFaculty "8:00" (days.get ⟨0, by decide⟩) = some nm ∧
      st.cellFaculty "8:00" (days.get ⟨1, by decide⟩) = some nm' ∧ nm ≠ nm') :=
  ⟨rfl, by decide, by decide, by decide,
    c5_consecutive_distinct "EEE-A" facTwo subjTwo roomsEx _ rfl 0 (by decide) "8:00"
      (by decide) (by decide)⟩

/-! ## C10 — no "Free" cell with two distinct resolvable faculty names -/

/-- C10: for every subject pool whose subjects all resolve and which carries
at least two distinct resolved faculty names, the engine succeeds and leaves
no cell "Free": at every cell, one full wrap of the cursor reaches a
candidate whose faculty name differs from the slot's remembered name. -/
theorem c10_no_free_cells (sectionName : String) (faculty : List FacultyRec)
    (avail : List SubjectRec) (rooms : List RoomRec)
    (hres : ∀ s ∈ avail, (findFaculty faculty s.facultyID).isSome = true ∧
      (findRoom rooms s.roomID).isSome = true)
    (hdist : ∃ s1 ∈ avail, ∃ s2 ∈ avail,
      Option.map FacultyRec.name (findFaculty faculty s1.facultyID) ≠
        Option.map FacultyRec.name (findFaculty faculty s2.facultyID)) :
    ∃ g, generate_timetable sectionName faculty avail rooms = .ok g ∧
      ∀ d ∈ days, ∀ t ∈ time_slots, g.cell t d ≠ "Free" := by
  have hlen : 0 < avail.length := by
    obtain ⟨s1, hs1, -⟩ := hdist
    refine List.length_pos.mpr ?_
    intro he
    rw [he] at hs1
    exact List.not_mem_nil _ hs1
  have hnd : days.Nodup := by decide
  obtain ⟨st', hfd, hin, -⟩ := fillDays_commits hres hlen hdist hnd initialState
  refine ⟨{ index := time_slots, columns := days, cell := st'.cells }, ?_, ?_⟩
  · unfold generate_timetable runEngine
    rw [hfd]
  · intro d hd t ht
    exact hin d hd t ht

/-- C10 witness: the statement instantiated on the concrete two-subject,
two-faculty pool. -/
theorem c10_witness :
    (∀ s ∈ subjTwo, (findFaculty facTwo s.facultyID).isSome = true ∧
      (findRoom roomsEx s.roomID).isSome = true) ∧
    (∃ s1 ∈ subjTwo, ∃ s2 ∈ subjTwo,
      Option.map FacultyRec.name (findFaculty facTwo s1.facultyID) ≠
        Option.map FacultyRec.name (findFaculty facTwo s2.facultyID)) ∧
    (∃ g, generate_timetable "EEE-B" facTwo subjTwo roomsEx = .ok g ∧
      ∀ d ∈ days, ∀ t ∈ time_slots, g.cell t d ≠ "Free") :=
  ⟨by decide, by decide,
    c10_no_free_cells "EEE-B" facTwo subjTwo roomsEx (by decide) (by decide)⟩

/-! ## C4 — malformed foreign keys -/

/-- C4, counterexample: a 49-subject pool whose last subject references the
absent faculty id "FBAD" does not make the engine fail — the 48 well-formed
subjects fill all 48 cells on first attempts, the cursor stops at 48, and
the malformed subject is never looked up, so the engine succeeds. -/
theorem c4_counterexample :
    engineOk (generate_timetable "EEE-A" bigFaculty bigSubjects bigRooms) = true ∧
    bigSubjects.any (fun s => (findFaculty bigFaculty s.facultyID).isNone) = true :=
  ⟨by decide, by decide⟩

/-- C4, amended: for every non-empty subject pool of size at most 48 (the
number of grid cells) containing a subject whose FacultyID or RoomID does
not occur in its table, the engine fails with a LookupError; the size bound
guarantees the cursor, which advances at least once per cell and visits
consecutive positions, reaches the malformed subject. -/
theorem c4_amended (sectionName : String) (faculty : List FacultyRec)
    (avail : List SubjectRec) (rooms : List RoomRec)
    (hlen : 0 < avail.length) (hsize : avail.length ≤ 48)
    (s : SubjectRec) (hs : s ∈ avail)
    (hbad : findFaculty faculty s.facultyID = none ∨ findRoom rooms s.roomID = none) :
    generate_timetable sectionName faculty avail rooms = .error .lookupError := by
  unfold generate_timetable
  cases hrun : runEngine faculty avail rooms with
  | error e =>
    cases e
    rfl
  | ok st =>
    exfalso
    have hrun' : fillDays faculty rooms avail days initialState = .ok st := hrun
    obtain ⟨hcov, -, hlen48⟩ := fillDays_lookupOk hrun'
    have hi0 : initialState.subjectIndex = 0 := rfl
    have hdl : days.length = 6 := rfl
    have h48 : 48 ≤ st.subjectIndex := by
      have := hlen48 hlen
      omega
    obtain ⟨p, hp⟩ := List.mem_iff_get?.mp hs
    have hplt : p < avail.length := by
      by_contra hge
      rw [List.get?_eq_none.mpr (Nat.le_of_not_lt hge)] at hp
      cases hp
    have hok := hcov p (by omega) (by omega)
    have hmod : p % avail.length = p := Nat.mod_eq_of_lt hplt
    have hboth := hok s (by rw [hmod]; exact hp)
    rcases hbad with hb | hb
    · rw [hb] at hboth
      exact Bool.noConfusion hboth.1
    · rw [hb] at hboth
      exact Bool.noConfusion hboth.2

/-- C4 witness: the amended statement at a one-subject pool whose faculty
key is unresolvable. -/
theorem c4_witness :
    (0 < ([{ subjectName := "S", facultyID := "F", roomID := "R" }] : List SubjectRec).length ∧
     ([{ subjectName := "S", facultyID := "F", roomID := "R" }] : List SubjectRec).length ≤ 48 ∧
     ({ subjectName := "S", facultyID := "F", roomID := "R" } : SubjectRec) ∈
       ([{ subjectName := "S", facultyID := "F", roomID := "R" }] : List SubjectRec) ∧
     (findFaculty [] ({ subjectName := "S", facultyID := "F", roomID := "R" } : SubjectRec).facultyID = none ∨
      findRoom [] ({ subjectName := "S", facultyID := "F", roomID := "R" } : SubjectRec).roomID = none)) ∧
    generate_timetable "EEE-A" []
      [{ subjectName := "S", facultyID := "F", roomID := "R" }] [] =
      .error .lookupError :=
  ⟨⟨by decide, by decide, by decide, Or.inl rfl⟩,
    c4_amended "EEE-A" [] [{ subjectName := "S", facultyID := "F", roomID := "R" }] []
      (by decide) (by decide) { subjectName := "S", facultyID := "F", roomID := "R" }
      (by decide) (Or.inl rfl)⟩
